import Mathlib

/-!
# Verification of `sin_cos_tab_tgen.py` (ack-ack repository)

Shallow embedding of the table-generator script `src/src-py/sin_cos_tab_tgen.py`
together with proofs of the specification claims about it.

The script works in CPython `float`s, i.e. IEEE-754 binary64.  We model a
binary64 value by the exact rational number it denotes, and model every
arithmetic operation of the script by exact rational arithmetic followed by
`fpRound`, an executable implementation of round-to-nearest, ties-to-even at
53 significant bits (with the subnormal exponent floor at `2 ^ (-1074)`).

The calls `math.sin` / `math.cos` / `math.tan` go to the platform libm, whose
code is not part of the repository; following the specification (which says the
underlying numeric routine silently returns the nearest representable value,
with no error handling of its own) they are modelled as the correctly rounded
real functions: `Real.sin` / `Real.cos` / `Real.tan` followed by rounding to
binary64.  Rounding a real number is not computable, so that rounding is a
separate, noncomputable definition `fpRoundRQ` mirroring `fpRound`.

String output is modelled line by line.  CPython's default float-to-string
conversion (shortest round-tripping decimal) is kept as an explicit parameter
`fmt : ℚ → String` of the output model: the spec pins it only as "a fixed
formatting policy", and the claims about line shape and counts hold for every
such policy.
-/

open scoped Real

namespace AckAck

/-! ## Exact model of IEEE-754 binary64 rounding -/

/-- One step of the binary search for `⌊log₂⌋`: the state `(acc, m)` keeps the
exponent accumulated so far and the remaining value `m`; if `m` still has more
than `b` bits, shift it right by `b` and add `b` to the accumulator. -/
def log2Step (b : ℕ) (p : ℕ × ℕ) : ℕ × ℕ :=
  match p with
  | (acc, m) =>
    match Nat.shiftRight m b with
    | 0 => (acc, m)
    | k + 1 => (Nat.add acc b, k + 1)

/-- `⌊log₂ n⌋` for `1 ≤ n < 2 ^ 4096`, by binary search on the exponent
(12 shift-and-compare steps), using only kernel-accelerated operations. -/
def natLog2 (n : ℕ) : ℕ :=
  (log2Step 1 (log2Step 2 (log2Step 4 (log2Step 8 (log2Step 16 (log2Step 32
    (log2Step 64 (log2Step 128 (log2Step 256 (log2Step 512 (log2Step 1024
      (log2Step 2048 (0, n))))))))))))).1

/-- Evaluate an integer to constructor form before passing it on.  This makes
the kernel compute a shared intermediate value once instead of re-reducing it
at every occurrence (call-by-name duplication). -/
def withInt (x : ℤ) (k : ℤ → α) : α :=
  match x with
  | Int.ofNat n => k (Int.ofNat n)
  | Int.negSucc n => k (Int.negSucc n)

/-- Evaluate a natural number to literal form before passing it on; see
`withInt`. -/
def withNat (x : ℕ) (k : ℕ → α) : α :=
  match x with
  | 0 => k 0
  | n + 1 => k (n + 1)

/-- Is `2 ^ k ≤ num / den` (with `den > 0`)?  Decided by cross-multiplication,
so that only integer arithmetic is involved. -/
def twoPowLeCore (k num : ℤ) (den : ℕ) : Bool :=
  if 0 ≤ k then ((2 ^ k.toNat : ℕ) : ℤ) * (den : ℤ) ≤ num
  else (den : ℤ) ≤ ((2 ^ (-k).toNat : ℕ) : ℤ) * num

/-- `⌊log₂ (num / den)⌋` for `num, den > 0`.  The candidate exponent obtained
from the bit lengths of the numerator and denominator is off by at most one,
and comparing with `2 ^ k` settles it. -/
def floorLog2Core (num : ℤ) (den : ℕ) : ℤ :=
  withInt ((natLog2 num.toNat : ℤ) - (natLog2 den : ℤ)) fun k =>
    if twoPowLeCore k num den then k else k - 1

/-- Round the fraction `a / b` (with `b > 0`) to the nearest integer, ties to
even: `n = ⌊a / b⌋`, and the remainder `r = a mod b` is compared against
`b / 2`. -/
def rneInt (a b : ℤ) : ℤ :=
  withInt (a.ediv b) fun n =>
    withInt (a.emod b) fun r =>
      if 2 * r < b then n
      else if b < 2 * r then n + 1
      else if n % 2 = 0 then n else n + 1

/-- Binary64 rounding of a positive fraction `num / den`: scale into
`[2 ^ 52, 2 ^ 53)` (or clamp the exponent at the subnormal floor `-1074`),
round the scaled value to the nearest integer with ties to even, and scale
back. -/
def fpRoundCore (num : ℤ) (den : ℕ) : ℚ :=
  withInt (max (floorLog2Core num den - 52) (-1074)) fun e =>
    if 0 ≤ e then
      withNat (2 ^ e.toNat) fun p =>
        Rat.divInt (rneInt num ((den : ℤ) * (p : ℤ)) * (p : ℤ)) 1
    else
      withNat (2 ^ (-e).toNat) fun p =>
        Rat.divInt (rneInt (num * (p : ℤ)) (den : ℤ)) (p : ℤ)

/-- IEEE-754 binary64 round-to-nearest, ties-to-even, as an exact map on the
rationals (value-level: the result is the rational denoted by the rounded
double; overflow is tracked separately via `maxFinite`). -/
def fpRound (q : ℚ) : ℚ :=
  match q with
  | ⟨num, den, _, _⟩ =>
    if num = 0 then 0
    else if 0 < num then fpRoundCore num den
    else -fpRoundCore (-num) den

/-- Model of CPython float division (`a / b` on doubles): the exact quotient,
correctly rounded. -/
def fpDiv (a b : ℚ) : ℚ := fpRound (a / b)

/-- Model of CPython float multiplication (`a * b` on doubles): the exact
product, correctly rounded. -/
def fpMul (a b : ℚ) : ℚ := fpRound (a * b)

/-- The exact rational value of CPython's `math.pi`, the IEEE-754 binary64
value nearest to π (hex float `0x1.921FB54442D18p+1`). -/
def mathPi : ℚ := 884279719003555 / 2 ^ 48

/-- The largest finite binary64 value, `(2 ^ 53 - 1) * 2 ^ 971`; any model
value of magnitude at most this is a finite double, not an infinity. -/
def maxFinite : ℚ := (((2 ^ 53 - 1) * 2 ^ 971 : ℕ) : ℚ)

/-! ## The two converters of the script

`hwians_to_degs` / `hwians_to_rads` translate the Python

```
def hwians_to_degs(hw):
    degs = (180 / 750) * hw
    return degs

def hwians_to_rads(hw):
    rads = (math.pi / 750) * hw
    return rads
```

`180 / 750` is CPython true division of integers (a correctly rounded double),
and the multiplication by the loop index `hw ≤ 375` (converted exactly to
double) rounds once more. -/

/-- `hwians_to_degs` of the script: `(180 / 750) * hw` in binary64. -/
def hwians_to_degs (hw : ℕ) : ℚ := fpMul (fpDiv 180 750) hw

/-- `hwians_to_rads` of the script: `(math.pi / 750) * hw` in binary64. -/
def hwians_to_rads (hw : ℕ) : ℚ := fpMul (fpDiv mathPi 750) hw

/-- The spec's formula for the degree converter, `unit * 180.0 / 750.0` in
standard left-to-right floating-point evaluation order (for the refinement
comparison of claim C1; the script itself computes `(180 / 750) * hw`). -/
def specDegs (hw : ℕ) : ℚ := fpDiv (fpMul hw 180) 750

/-- The spec's formula for the radian converter, `unit * π / 750.0` in
standard left-to-right floating-point evaluation order (for the refinement
comparison of claim C2; the script itself computes `(math.pi / 750) * hw`). -/
def specRads (hw : ℕ) : ℚ := fpDiv (fpMul hw mathPi) 750

/-! ## Model of the libm trig calls

`math.sin` / `math.cos` / `math.tan` call the platform C library; that code is
not part of this repository.  Following the spec (the underlying routine
silently returns the nearest representable value, with no error handling),
they are modelled as the exact real functions rounded to binary64.  Rounding a
real number is noncomputable; `rneR` / `fpExpR` / `fpRoundRQ` mirror `rneInt` /
`floorLog2Core` / `fpRound` at the real level and return the exact rational
value of the resulting double. -/

/-- Round a real number to the nearest integer, ties to even. -/
noncomputable def rneR (x : ℝ) : ℤ :=
  if Int.fract x < 1 / 2 then ⌊x⌋
  else if (1 : ℝ) / 2 < Int.fract x then ⌊x⌋ + 1
  else if ⌊x⌋ % 2 = 0 then ⌊x⌋ else ⌊x⌋ + 1

/-- The binary64 scaling exponent of a positive real: `⌊log₂ x⌋ - 52`, clamped
below at the subnormal floor `-1074`. -/
noncomputable def fpExpR (x : ℝ) : ℤ := max (⌊Real.logb 2 x⌋ - 52) (-1074)

/-- Binary64 rounding of a positive real, returning the exact rational value
of the rounded double. -/
noncomputable def fpRoundPosRQ (x : ℝ) : ℚ :=
  (rneR (x / 2 ^ fpExpR x) : ℚ) * 2 ^ fpExpR x

/-- IEEE-754 binary64 round-to-nearest, ties-to-even on the reals, returning
the exact rational value of the rounded double. -/
noncomputable def fpRoundRQ (x : ℝ) : ℚ :=
  if x = 0 then 0 else if 0 < x then fpRoundPosRQ x else -fpRoundPosRQ (-x)

/-- Model of `math.sin`: the exact sine, correctly rounded to binary64. -/
noncomputable def sinD (q : ℚ) : ℚ := fpRoundRQ (Real.sin (q : ℝ))

/-- Model of `math.cos`: the exact cosine, correctly rounded to binary64. -/
noncomputable def cosD (q : ℚ) : ℚ := fpRoundRQ (Real.cos (q : ℝ))

/-- Model of `math.tan`: the exact tangent, correctly rounded to binary64. -/
noncomputable def tanD (q : ℚ) : ℚ := fpRoundRQ (Real.tan (q : ℝ))

/-! ## The emitted text

The script is three copies of

```
print(";\n;sin")
for hw in range(0, 376, 1):
    rads = hwians_to_rads(hw)
    degs = hwians_to_degs(hw)
    r = math.sin(rads)
    print("{}\t; HW:{:3} Rads:{} Degs:{}".format(r, hw, rads, degs))
```

(with `cos` and `tan` in place of `sin`).  Output is modelled as the list of
printed lines; the first `print` emits the two header lines `;` and `;sin`.
CPython's default float-to-string conversion (`"{}".format` on a float, i.e.
shortest round-tripping decimal) is kept as an explicit parameter
`fmt : ℚ → String` mapping the exact rational value of a double to its text,
as the spec only requires a fixed formatting policy. -/

/-- Python `"{:3}".format(hw)`: the decimal digits of `hw`, right-aligned with
spaces in a field of width 3 (numbers right-align by default). -/
def fmtHW (hw : ℕ) : String :=
  String.mk (List.replicate (3 - (toString hw).length) ' ') ++ toString hw

/-- One data line, `"{}\t; HW:{:3} Rads:{} Degs:{}".format(r, hw, rads, degs)`. -/
def dataLine (fmt : ℚ → String) (r : ℚ) (hw : ℕ) (rads degs : ℚ) : String :=
  fmt r ++ "\t; HW:" ++ fmtHW hw ++ " Rads:" ++ fmt rads ++ " Degs:" ++ fmt degs

/-- One pass of the script: the two header lines followed by the 376 data
lines for `hw = 0, 1, ..., 375`, where `trig` is the trig function of the
pass. -/
def tablePass (fmt : ℚ → String) (name : String) (trig : ℚ → ℚ) : List String :=
  ";" :: (";" ++ name) ::
    (List.range 376).map (fun hw =>
      dataLine fmt (trig (hwians_to_rads hw)) hw (hwians_to_rads hw) (hwians_to_degs hw))

/-- The complete standard output of the script, as a list of lines: the sine,
cosine and tangent passes, in program order. -/
noncomputable def moduleOutput (fmt : ℚ → String) : List String :=
  tablePass fmt "sin" sinD ++ tablePass fmt "cos" cosD ++ tablePass fmt "tan" tanD

/-- A run of the script in an operating-system context: command-line
arguments, environment variables and standard input are modelled explicitly;
the script consults none of them. -/
noncomputable def scriptRun (fmt : ℚ → String) (_argv : List String)
    (_env : List (String × String)) (_stdin : List String) : List String :=
  moduleOutput fmt

/-! ## Bounds on the real-side rounding -/


/-- `rneR` rounds to one of the two integers surrounding `x`. -/
lemma rneR_bounds (x : ℝ) : ⌊x⌋ ≤ rneR x ∧ rneR x ≤ ⌊x⌋ + 1 := by
  unfold rneR
  split_ifs <;> omega

/-- For `0 < x ≤ 2 ^ 60`, the binary64 scaling exponent is at most 8. -/
lemma fpExpR_le_eight {x : ℝ} (hx : 0 < x) (h : x ≤ 2 ^ 60) : fpExpR x ≤ 8 := by
  have h2 : (1 : ℝ) < 2 := one_lt_two
  have hlog : Real.logb 2 x ≤ 60 := by
    have h60 : ((2 : ℝ) ^ (60 : ℕ)) = (2 : ℝ) ^ ((60 : ℕ) : ℝ) :=
      (Real.rpow_natCast 2 60).symm
    have : Real.logb 2 x ≤ Real.logb 2 (2 ^ (60 : ℕ)) :=
      Real.logb_le_logb_of_le h2 hx h
    rwa [h60, Real.logb_rpow (by norm_num) (by norm_num)] at this
  have hfloor : ⌊Real.logb 2 x⌋ ≤ 60 := by
    have := Int.floor_mono hlog
    simpa using this
  unfold fpExpR
  omega

/-- The rounded value of a positive real `x ≤ 2 ^ 60` lies within `2 ^ 8`
of `x`. -/
lemma fpRoundPosRQ_bounds {x : ℝ} (hx : 0 < x) (h : x ≤ 2 ^ 60) :
    x - 2 ^ 8 ≤ (fpRoundPosRQ x : ℝ) ∧ (fpRoundPosRQ x : ℝ) ≤ x + 2 ^ 8 := by
  have he : fpExpR x ≤ 8 := fpExpR_le_eight hx h
  set e := fpExpR x with hedef
  have hep : (0 : ℝ) < 2 ^ e := zpow_pos (by norm_num) e
  have hele : (2 : ℝ) ^ e ≤ 2 ^ 8 := by
    calc (2 : ℝ) ^ e ≤ 2 ^ (8 : ℤ) := zpow_le_zpow_right₀ (by norm_num) he
    _ = 2 ^ 8 := by norm_num
  set y := x / 2 ^ e with hydef
  have hcast : (fpRoundPosRQ x : ℝ) = (rneR y : ℝ) * 2 ^ e := by
    unfold fpRoundPosRQ
    push_cast [Rat.cast_zpow]
    norm_num
  have hrb := rneR_bounds y
  have hup : (rneR y : ℝ) ≤ y + 1 := by
    have h1 : ((⌊y⌋ : ℤ) : ℝ) ≤ y := Int.floor_le y
    have h2 : (rneR y : ℝ) ≤ ((⌊y⌋ + 1 : ℤ) : ℝ) := by exact_mod_cast hrb.2
    push_cast at h2
    linarith
  have hdn : y - 1 ≤ (rneR y : ℝ) := by
    have h1 : y - 1 < ((⌊y⌋ : ℤ) : ℝ) := by
      have := Int.sub_one_lt_floor y
      linarith
    have h2 : ((⌊y⌋ : ℤ) : ℝ) ≤ (rneR y : ℝ) := by exact_mod_cast hrb.1
    linarith
  have hyx : y * 2 ^ e = x := div_mul_cancel₀ x (ne_of_gt hep)
  constructor
  · have : (y - 1) * 2 ^ e ≤ (rneR y : ℝ) * 2 ^ e := by
      exact mul_le_mul_of_nonneg_right hdn (le_of_lt hep)
    rw [hcast]
    calc x - 2 ^ 8 ≤ x - 2 ^ e := by linarith
    _ = (y - 1) * 2 ^ e := by rw [sub_one_mul, hyx]
    _ ≤ _ := this
  · have : (rneR y : ℝ) * 2 ^ e ≤ (y + 1) * 2 ^ e := by
      exact mul_le_mul_of_nonneg_right hup (le_of_lt hep)
    rw [hcast]
    calc (rneR y : ℝ) * 2 ^ e ≤ (y + 1) * 2 ^ e := this
    _ = x + 2 ^ e := by rw [add_one_mul, hyx]
    _ ≤ x + 2 ^ 8 := by linarith

/-- Any real of magnitude at most `2 ^ 60` rounds to a double of magnitude at
most `2 ^ 61`. -/
lemma abs_fpRoundRQ_le {x : ℝ} (h : |x| ≤ 2 ^ 60) : |(fpRoundRQ x : ℝ)| ≤ 2 ^ 61 := by
  unfold fpRoundRQ
  split_ifs with h0 hpos
  · norm_num
  · have hx : 0 < x := hpos
    have hax : x ≤ 2 ^ 60 := by
      have := abs_le.mp h
      linarith [this.2]
    have hb := fpRoundPosRQ_bounds hx hax
    rw [abs_le]
    constructor <;> nlinarith [hb.1, hb.2]
  · have hx : 0 < -x := by
      rcases lt_trichotomy x 0 with hlt | heq | hgt
      · linarith
      · exact absurd heq h0
      · exact absurd hgt hpos
    have hax : -x ≤ 2 ^ 60 := by
      have := abs_le.mp h
      linarith [this.1]
    have hb := fpRoundPosRQ_bounds hx hax
    push_cast
    rw [abs_le]
    constructor <;> nlinarith [hb.1, hb.2]

/-- A positive real rounds to a double no smaller than `x - 2 ^ 8`. -/
lemma fpRoundRQ_pos_lower {x : ℝ} (hx : 0 < x) (h : x ≤ 2 ^ 60) :
    x - 2 ^ 8 ≤ (fpRoundRQ x : ℝ) := by
  unfold fpRoundRQ
  rw [if_neg (ne_of_gt hx), if_pos hx]
  exact (fpRoundPosRQ_bounds hx h).1

/-- Zero rounds to zero. -/
lemma fpRoundRQ_zero : fpRoundRQ 0 = 0 := by simp [fpRoundRQ]

/-- The modelled `math.sin` sends `+0.0` to `+0.0`. -/
lemma sinD_zero : sinD 0 = 0 := by
  unfold sinD
  rw [show ((0 : ℚ) : ℝ) = 0 by norm_num, Real.sin_zero, fpRoundRQ_zero]

/-! ## Bounds on the exact tangent at the table inputs -/


/-- The exact rational value of the double `hwians_to_rads 375`
(hex float `0x1.921FB54442D17p+0`), as a real number. -/
noncomputable def rads375R : ℝ := 7074237752028439 / 4503599627370496

/-- `rads375R` lies strictly below `π / 2`, at distance between `28 / 10 ^ 17`
and `29 / 10 ^ 17`. -/
lemma pi_div_two_sub_rads375R_bounds :
    28 / 10 ^ 17 ≤ π / 2 - rads375R ∧ π / 2 - rads375R ≤ 29 / 10 ^ 17 := by
  have hpi_lo : (3.14159265358979323846 : ℝ) < π := Real.pi_gt_d20
  have hpi_hi : π < 3.14159265358979323847 := Real.pi_lt_d20
  constructor
  · have h : (28 : ℝ) / 10 ^ 17 ≤ 3.14159265358979323846 / 2 - rads375R := by
      unfold rads375R
      norm_num
    linarith
  · have h : (3.14159265358979323847 : ℝ) / 2 - rads375R ≤ 29 / 10 ^ 17 := by
      unfold rads375R
      norm_num
    linarith

/-- The exact tangent at the double nearest `π / 2` reached by the table,
`hwians_to_rads 375`, is huge but bounded: between `2.4 * 10 ^ 15` and
`2 ^ 60`. -/
lemma tan_rads375R_bounds :
    2400000000000000 ≤ Real.tan rads375R ∧ Real.tan rads375R ≤ 2 ^ 60 := by
  obtain ⟨hδlo, hδhi⟩ := pi_div_two_sub_rads375R_bounds
  set δ : ℝ := π / 2 - rads375R with hδdef
  have hδpos : 0 < δ := lt_of_lt_of_le (by norm_num) hδlo
  have hδ1 : δ ≤ 1 := le_trans hδhi (by norm_num)
  have hcos : Real.cos rads375R = Real.sin δ := (Real.sin_pi_div_two_sub rads375R).symm
  have hδ3 : δ ^ 3 ≤ (29 / 10 ^ 17) ^ 3 := pow_le_pow_left₀ hδpos.le hδhi 3
  have hsinlo : 27 / 10 ^ 17 ≤ Real.sin δ := by
    have hcube := Real.sin_gt_sub_cube hδpos hδ1
    nlinarith
  have hsinhi : Real.sin δ ≤ 29 / 10 ^ 17 := le_trans (Real.sin_lt hδpos).le hδhi
  have hcospos : 0 < Real.cos rads375R := by rw [hcos]; linarith
  have hRpos : (0 : ℝ) < rads375R := by unfold rads375R; norm_num
  have htan := Real.tan_eq_sin_div_cos rads375R
  constructor
  · rw [htan, le_div_iff₀ hcospos]
    have hsinR : Real.sqrt 2 / 2 ≤ Real.sin rads375R := by
      have h4 : π / 4 ≤ rads375R := by
        have : π < 4 := Real.pi_lt_four
        have hR1 : (1 : ℝ) ≤ rads375R := by unfold rads375R; norm_num
        linarith
      have hup : rads375R ≤ π / 2 := by linarith
      have hlow : -(π / 2) ≤ π / 4 := by linarith [Real.pi_pos]
      have := Real.sin_le_sin_of_le_of_le_pi_div_two hlow hup h4
      rwa [Real.sin_pi_div_four] at this
    have hsqrt2 : (1.4 : ℝ) ≤ Real.sqrt 2 := by
      nlinarith [Real.sq_sqrt (by norm_num : (2:ℝ) ≥ 0), Real.sqrt_nonneg 2]
    have hcoshi : Real.cos rads375R ≤ 29 / 10 ^ 17 := by rw [hcos]; exact hsinhi
    nlinarith
  · rw [htan, div_le_iff₀ hcospos]
    have hsin1 := Real.sin_le_one rads375R
    nlinarith

/-- On the rational inputs of the first 375 tangent rows (all at most
`1.5667 < π / 2`), the exact tangent is at most `2 ^ 60` in magnitude. -/
lemma abs_tan_small_le {q : ℚ} (h0 : 0 ≤ q) (h1 : q ≤ 15667 / 10000) :
    |Real.tan (q : ℝ)| ≤ 2 ^ 60 := by
  have hx0 : (0 : ℝ) ≤ (q : ℝ) := by exact_mod_cast h0
  have hx1 : (q : ℝ) ≤ 15667 / 10000 := by
    have : ((q : ℚ) : ℝ) ≤ ((15667 / 10000 : ℚ) : ℝ) := by exact_mod_cast h1
    rwa [show ((15667 / 10000 : ℚ) : ℝ) = 15667 / 10000 by norm_num] at this
  have hpi_lo : (3.141592 : ℝ) < π := Real.pi_gt_d6
  have hpi_hi : π < 3.141593 := Real.pi_lt_d6
  have hcm : Real.cos (15667 / 10000) ≤ Real.cos (q : ℝ) :=
    Real.cos_le_cos_of_nonneg_of_le_pi hx0 (by linarith) hx1
  have hcos : Real.cos (15667 / 10000 : ℝ) = Real.sin (π / 2 - 15667 / 10000) :=
    (Real.sin_pi_div_two_sub (15667 / 10000)).symm
  set y : ℝ := π / 2 - 15667 / 10000 with hydef
  have hylo : 0.004096 ≤ y := by rw [hydef]; linarith
  have hyhi : y ≤ 0.0040965 := by rw [hydef]; linarith
  have hypos : 0 < y := lt_of_lt_of_le (by norm_num) hylo
  have hy3 : y ^ 3 ≤ (0.0040965 : ℝ) ^ 3 := pow_le_pow_left₀ hypos.le hyhi 3
  have hsiny : (1 : ℝ) / 250 ≤ Real.sin y := by
    have hcube := Real.sin_gt_sub_cube hypos (le_trans hyhi (by norm_num))
    nlinarith
  have hcospos : (1 : ℝ) / 250 ≤ Real.cos (q : ℝ) := by
    calc (1 : ℝ) / 250 ≤ Real.sin y := hsiny
    _ = Real.cos (15667 / 10000 : ℝ) := by rw [hcos]
    _ ≤ Real.cos (q : ℝ) := hcm
  have hcospos0 : 0 < Real.cos (q : ℝ) := lt_of_lt_of_le (by norm_num) hcospos
  rw [Real.tan_eq_sin_div_cos, abs_div, abs_of_pos hcospos0]
  rw [div_le_iff₀ hcospos0]
  have hsin : |Real.sin (q : ℝ)| ≤ 1 :=
    abs_le.mpr ⟨Real.neg_one_le_sin _, Real.sin_le_one _⟩
  nlinarith

/-! ## Structure of the emitted line list -/


/-- Each pass prints 378 lines: 2 header lines and 376 data lines. -/
lemma tablePass_length (fmt : ℚ → String) (nm : String) (trig : ℚ → ℚ) :
    (tablePass fmt nm trig).length = 378 := by
  simp [tablePass]

/-- Line `u + 2` of a pass (0-based) is the data line for unit `u`. -/
lemma tablePass_data (fmt : ℚ → String) (nm : String) (trig : ℚ → ℚ)
    {u : ℕ} (hu : u < 376) :
    (tablePass fmt nm trig)[u + 2]? =
      some (dataLine fmt (trig (hwians_to_rads u)) u (hwians_to_rads u)
        (hwians_to_degs u)) := by
  simp [tablePass, List.getElem?_range hu]

/-- The first two lines of a pass are the header `;` and `;<name>`. -/
lemma tablePass_headers (fmt : ℚ → String) (nm : String) (trig : ℚ → ℚ) :
    (tablePass fmt nm trig)[0]? = some ";" ∧
      (tablePass fmt nm trig)[1]? = some (";" ++ nm) := by
  simp [tablePass]

/-- The output lines 0-377 are the sine pass. -/
lemma moduleOutput_sin (fmt : ℚ → String) {n : ℕ} (hn : n < 378) :
    (moduleOutput fmt)[n]? = (tablePass fmt "sin" sinD)[n]? := by
  unfold moduleOutput
  rw [List.append_assoc, List.getElem?_append_left (by rw [tablePass_length]; omega)]

/-- The output lines 378-755 are the cosine pass. -/
lemma moduleOutput_cos (fmt : ℚ → String) {n : ℕ} (hn : 378 ≤ n) (hn2 : n < 756) :
    (moduleOutput fmt)[n]? = (tablePass fmt "cos" cosD)[n - 378]? := by
  unfold moduleOutput
  rw [List.append_assoc, List.getElem?_append_right (by rw [tablePass_length]; omega),
    tablePass_length, List.getElem?_append_left (by rw [tablePass_length]; omega)]

/-- The output lines 756-1133 are the tangent pass. -/
lemma moduleOutput_tan (fmt : ℚ → String) {n : ℕ} (hn : 756 ≤ n) :
    (moduleOutput fmt)[n]? = (tablePass fmt "tan" tanD)[n - 756]? := by
  unfold moduleOutput
  rw [List.append_assoc, List.getElem?_append_right (by rw [tablePass_length]; omega),
    tablePass_length, List.getElem?_append_right (by rw [tablePass_length]; omega),
    tablePass_length, show n - 378 - 378 = n - 756 from by omega]

/-- The output consists of 1134 lines in total. -/
lemma moduleOutput_length (fmt : ℚ → String) : (moduleOutput fmt).length = 1134 := by
  unfold moduleOutput
  rw [List.length_append, List.length_append, tablePass_length, tablePass_length,
    tablePass_length]

/-! ## Concrete evaluations of the converters -/


attribute [local semireducible] Rat.mul Rat.add Rat.sub Rat.inv Rat.ofScientific

set_option maxRecDepth 100000

set_option maxHeartbeats 4000000

/-- One computational sweep over all 376 units, establishing at once: the
one-ulp agreement between the script's converters and the spec's formulas,
nonnegativity and the `≤ 1.5667` range of the radian column, the width-3
unit field, and the one-step monotonicity of both converters. -/
lemma masterTable : ∀ u : Fin 376,
    |hwians_to_degs u.val - specDegs u.val| ≤ 1 / 70368744177664
    ∧ |hwians_to_rads u.val - specRads u.val| ≤ 1 / 2251799813685248
    ∧ 0 ≤ hwians_to_rads u.val
    ∧ (fmtHW u.val).length = 3
    ∧ (u.val < 375 →
        hwians_to_degs u.val ≤ hwians_to_degs (u.val + 1)
        ∧ hwians_to_rads u.val ≤ hwians_to_rads (u.val + 1)
        ∧ hwians_to_rads u.val ≤ 15667 / 10000) := by
  decide

/-- The degree converter is exact at both endpoints. -/
lemma degs_endpoints : hwians_to_degs 0 = 0 ∧ hwians_to_degs 375 = 90 := by decide

/-- At unit 11 the script's degrees differ from the spec's formula
(`2.6399999999999997` versus `2.64`). -/
lemma degs11_ne : hwians_to_degs 11 ≠ specDegs 11 := by decide

/-- At unit 3 the script's radians differ from the spec's formula. -/
lemma rads3_ne : hwians_to_rads 3 ≠ specRads 3 := by decide

/-- The radian column starts at exactly zero. -/
lemma rads_zero : hwians_to_rads 0 = 0 := by decide

/-- The exact value of the final radian entry, one ulp below the double
nearest `π / 2`. -/
lemma rads375_eq : hwians_to_rads 375 = 7074237752028439 / 4503599627370496 := by decide

/-- A double of magnitude at most `2 ^ 61` is finite. -/
lemma two_pow_61_le_maxFinite : (2 : ℚ) ^ 61 ≤ maxFinite := by decide

/-- The unit field of line `u` is the 3-character right-aligned decimal. -/
lemma fmtHW_zero : fmtHW 0 = "  0" := by decide

/-! ## The claims -/


/-- A function on `0..375` that increases at each step is monotone on the
whole range. -/
lemma mono_of_steps {f : ℕ → ℚ} (hstep : ∀ u, u < 375 → f u ≤ f (u + 1)) :
    ∀ u1 u2 : ℕ, u1 ≤ u2 → u2 ≤ 375 → f u1 ≤ f u2 := by
  intro u1 u2 h hle
  induction u2 with
  | zero =>
    have h0 : u1 = 0 := Nat.le_zero.mp h
    simp [h0]
  | succ n ih =>
    rcases Nat.eq_or_lt_of_le h with heq | hlt
    · subst heq; exact le_refl _
    · exact le_trans (ih (Nat.lt_succ_iff.mp hlt) (by omega)) (hstep n (by omega))

/-- The rational value of the final radian entry, as a real number. -/
lemma cast_rads375 : ((hwians_to_rads 375 : ℚ) : ℝ) = rads375R := by
  rw [rads375_eq]
  unfold rads375R
  push_cast
  norm_num

/-- Reals of magnitude at most `2 ^ 60` round to finite doubles. -/
lemma abs_fpRoundRQ_le_maxFinite {x : ℝ} (h : |x| ≤ 2 ^ 60) :
    |fpRoundRQ x| ≤ maxFinite := by
  have h2 := abs_fpRoundRQ_le h
  have hcast : |fpRoundRQ x| ≤ (2 ^ 61 : ℚ) := by
    have hr : |((fpRoundRQ x : ℚ) : ℝ)| ≤ ((2 ^ 61 : ℚ) : ℝ) := by push_cast; exact h2
    rw [← Rat.cast_abs] at hr
    exact_mod_cast hr
  exact le_trans hcast two_pow_61_le_maxFinite

/-- C1.  The claim asserts `hwians_to_degs unit == unit * 180.0 / 750.0`
(left-to-right evaluation) for every unit in `[0, 375]`; this fails, e.g. at
unit 11, where the script computes `2.6399999999999997` and the spec's formula
gives `2.64`. -/
theorem c1_exact_equality_fails : hwians_to_degs 11 ≠ specDegs 11 := degs11_ne

/-- C1 (amended).  The script's degrees `(180 / 750) * unit` agree with the
spec's `unit * 180.0 / 750.0` only to within `2 ^ (-46)` (one ulp at the top
of the range), not exactly. -/
theorem c1_ulp_agreement : ∀ u : Fin 376,
    |hwians_to_degs u.val - specDegs u.val| ≤ 1 / 70368744177664 :=
  fun u => (masterTable u).1

/-- C2.  The claim asserts `hwians_to_rads unit == unit * math.pi / 750.0`
(left-to-right evaluation) for every unit in `[0, 375]`; this fails, e.g. at
unit 3. -/
theorem c2_exact_equality_fails : hwians_to_rads 3 ≠ specRads 3 := rads3_ne

/-- C2 (amended).  The script's radians `(math.pi / 750) * unit` agree with
the spec's `unit * math.pi / 750.0` only to within `2 ^ (-51)` (one ulp at the
top of the range), not exactly. -/
theorem c2_ulp_agreement : ∀ u : Fin 376,
    |hwians_to_rads u.val - specRads u.val| ≤ 1 / 2251799813685248 :=
  fun u => (masterTable u).2.1

/-- C5.  The degree converter is exact at the endpoints:
`hwians_to_degs 0 = 0.0` and `hwians_to_degs 375 = 90.0` in binary64. -/
theorem c5_endpoints_exact : hwians_to_degs 0 = 0 ∧ hwians_to_degs 375 = 90 :=
  degs_endpoints

/-- C10.  Both converters are monotone over the integer domain `[0, 375]`, so
the Rads and Degs columns are non-decreasing down each pass. -/
theorem c10_monotone : ∀ u1 u2 : ℕ, u1 ≤ u2 → u2 ≤ 375 →
    hwians_to_degs u1 ≤ hwians_to_degs u2 ∧ hwians_to_rads u1 ≤ hwians_to_rads u2 := by
  intro u1 u2 h hle
  constructor
  · exact mono_of_steps
      (fun u hu => ((masterTable ⟨u, by omega⟩).2.2.2.2 hu).1) u1 u2 h hle
  · exact mono_of_steps
      (fun u hu => ((masterTable ⟨u, by omega⟩).2.2.2.2 hu).2.1) u1 u2 h hle

/-- Witness for C10 at units 7 and 11. -/
theorem c10_monotone_witness :
    hwians_to_degs 7 ≤ hwians_to_degs 11 ∧ hwians_to_rads 7 ≤ hwians_to_rads 11 :=
  c10_monotone 7 11 (by decide) (by decide)

/-- C8.  The script reads no command-line arguments, environment variables or
standard input: any two runs (under one formatting policy) produce identical
output. -/
theorem c8_deterministic :
    ∀ (fmt : ℚ → String) (a1 : List String) (e1 : List (String × String))
      (s1 : List String) (a2 : List String) (e2 : List (String × String))
      (s2 : List String), scriptRun fmt a1 e1 s1 = scriptRun fmt a2 e2 s2 :=
  fun _ _ _ _ _ _ _ => rfl


/-- C3.  The output is three passes (sine, cosine, tangent, in that order),
each a two-line header (`;` then `;<name>`) followed by 376 data lines for
units 0-375 in ascending order; 1134 lines in total, 1128 of them data
lines. -/
theorem c3_three_passes (fmt : ℚ → String) :
    (moduleOutput fmt).length = 1134
    ∧ (moduleOutput fmt).length - 6 = 1128
    ∧ (moduleOutput fmt)[0]? = some ";"
    ∧ (moduleOutput fmt)[1]? = some ";sin"
    ∧ (moduleOutput fmt)[378]? = some ";"
    ∧ (moduleOutput fmt)[379]? = some ";cos"
    ∧ (moduleOutput fmt)[756]? = some ";"
    ∧ (moduleOutput fmt)[757]? = some ";tan"
    ∧ ∀ u : Fin 376,
        (moduleOutput fmt)[u.val + 2]? =
          some (dataLine fmt (sinD (hwians_to_rads u.val)) u.val
            (hwians_to_rads u.val) (hwians_to_degs u.val))
        ∧ (moduleOutput fmt)[u.val + 380]? =
          some (dataLine fmt (cosD (hwians_to_rads u.val)) u.val
            (hwians_to_rads u.val) (hwians_to_degs u.val))
        ∧ (moduleOutput fmt)[u.val + 758]? =
          some (dataLine fmt (tanD (hwians_to_rads u.val)) u.val
            (hwians_to_rads u.val) (hwians_to_degs u.val)) := by
  refine ⟨moduleOutput_length fmt, by rw [moduleOutput_length], ?_, ?_, ?_, ?_, ?_, ?_, ?_⟩
  · rw [moduleOutput_sin fmt (by norm_num)]
    exact (tablePass_headers fmt "sin" sinD).1
  · rw [moduleOutput_sin fmt (by norm_num)]
    exact (tablePass_headers fmt "sin" sinD).2
  · rw [moduleOutput_cos fmt (by norm_num) (by norm_num)]
    exact (tablePass_headers fmt "cos" cosD).1
  · rw [moduleOutput_cos fmt (by norm_num) (by norm_num)]
    exact (tablePass_headers fmt "cos" cosD).2
  · rw [moduleOutput_tan fmt (by norm_num)]
    exact (tablePass_headers fmt "tan" tanD).1
  · rw [moduleOutput_tan fmt (by norm_num)]
    exact (tablePass_headers fmt "tan" tanD).2
  · intro u
    refine ⟨?_, ?_, ?_⟩
    · rw [moduleOutput_sin fmt (by omega)]
      exact tablePass_data fmt "sin" sinD u.isLt
    · rw [moduleOutput_cos fmt (by omega) (by omega),
        show u.val + 380 - 378 = u.val + 2 from by omega]
      exact tablePass_data fmt "cos" cosD u.isLt
    · rw [moduleOutput_tan fmt (by omega),
        show u.val + 758 - 756 = u.val + 2 from by omega]
      exact tablePass_data fmt "tan" tanD u.isLt

/-- C7.  Every data line of every pass is exactly: the formatted trig value, a
tab, then `; HW:` with the unit right-aligned in a 3-character field, then
` Rads:` and ` Degs:` with the formatted radian and degree values. -/
theorem c7_line_shape (fmt : ℚ → String) : ∀ u : Fin 376,
    ((tablePass fmt "sin" sinD)[u.val + 2]? =
      some (fmt (sinD (hwians_to_rads u.val)) ++ "\t" ++ "; HW:" ++ fmtHW u.val
        ++ " Rads:" ++ fmt (hwians_to_rads u.val)
        ++ " Degs:" ++ fmt (hwians_to_degs u.val)))
    ∧ ((tablePass fmt "cos" cosD)[u.val + 2]? =
      some (fmt (cosD (hwians_to_rads u.val)) ++ "\t" ++ "; HW:" ++ fmtHW u.val
        ++ " Rads:" ++ fmt (hwians_to_rads u.val)
        ++ " Degs:" ++ fmt (hwians_to_degs u.val)))
    ∧ ((tablePass fmt "tan" tanD)[u.val + 2]? =
      some (fmt (tanD (hwians_to_rads u.val)) ++ "\t" ++ "; HW:" ++ fmtHW u.val
        ++ " Rads:" ++ fmt (hwians_to_rads u.val)
        ++ " Degs:" ++ fmt (hwians_to_degs u.val)))
    ∧ (fmtHW u.val).length = 3 := by
  intro u
  refine ⟨?_, ?_, ?_, (masterTable u).2.2.2.1⟩
  · rw [tablePass_data fmt "sin" sinD u.isLt]
    simp only [dataLine, String.append_assoc]
    rfl
  · rw [tablePass_data fmt "cos" cosD u.isLt]
    simp only [dataLine, String.append_assoc]
    rfl
  · rw [tablePass_data fmt "tan" tanD u.isLt]
    simp only [dataLine, String.append_assoc]
    rfl

/-- C6.  Under a formatting policy printing the double `0.0` as `0.0`, the
first three output lines are `;`, `;sin`, and the sine entry for unit 0 with
trig value `0.0`, field `HW:  0`, radians `0.0` and degrees `0.0`. -/
theorem c6_first_lines (fmt : ℚ → String) (hfmt : fmt 0 = "0.0") :
    (moduleOutput fmt)[0]? = some ";"
    ∧ (moduleOutput fmt)[1]? = some ";sin"
    ∧ (moduleOutput fmt)[2]? = some "0.0\t; HW:  0 Rads:0.0 Degs:0.0" := by
  refine ⟨?_, ?_, ?_⟩
  · rw [moduleOutput_sin fmt (by norm_num)]
    exact (tablePass_headers fmt "sin" sinD).1
  · rw [moduleOutput_sin fmt (by norm_num)]
    exact (tablePass_headers fmt "sin" sinD).2
  · rw [moduleOutput_sin fmt (by norm_num),
      show (2 : ℕ) = 0 + 2 from rfl,
      tablePass_data fmt "sin" sinD (by norm_num),
      rads_zero, degs_endpoints.1, sinD_zero]
    unfold dataLine
    rw [hfmt, fmtHW_zero]
    rfl

/-- Witness for C6, instantiating the formatting policy with the constant
function printing `0.0`. -/
theorem c6_first_lines_witness :
    (moduleOutput (fun _ => "0.0"))[0]? = some ";"
    ∧ (moduleOutput (fun _ => "0.0"))[1]? = some ";sin"
    ∧ (moduleOutput (fun _ => "0.0"))[2]? =
        some "0.0\t; HW:  0 Rads:0.0 Degs:0.0" :=
  c6_first_lines (fun _ => "0.0") rfl

/-- C4.  The tangent entry for unit 375 (90 degrees) is a very large but
finite double (at least `10 ^ 15` and within the finite binary64 range), and
line 1133 of the output passes it through like every other data line, with no
special-casing. -/
theorem c4_tan375_large_finite (fmt : ℚ → String) :
    1000000000000000 ≤ tanD (hwians_to_rads 375)
    ∧ |tanD (hwians_to_rads 375)| ≤ maxFinite
    ∧ (moduleOutput fmt)[1133]? =
        some (dataLine fmt (tanD (hwians_to_rads 375)) 375 (hwians_to_rads 375)
          (hwians_to_degs 375)) := by
  obtain ⟨hlo, hhi⟩ := tan_rads375R_bounds
  have htanpos : (0 : ℝ) < Real.tan rads375R := lt_of_lt_of_le (by norm_num) hlo
  refine ⟨?_, ?_, ?_⟩
  · have h1 : Real.tan rads375R - 2 ^ 8 ≤ (fpRoundRQ (Real.tan rads375R) : ℝ) :=
      fpRoundRQ_pos_lower htanpos hhi
    have h2 : ((1000000000000000 : ℚ) : ℝ) ≤ (fpRoundRQ (Real.tan rads375R) : ℝ) := by
      push_cast
      linarith
    unfold tanD
    rw [cast_rads375]
    exact_mod_cast h2
  · unfold tanD
    rw [cast_rads375]
    exact abs_fpRoundRQ_le_maxFinite (by rw [abs_of_pos htanpos]; exact hhi)
  · rw [moduleOutput_tan fmt (by norm_num),
      show (1133 : ℕ) - 756 = 375 + 2 from by norm_num]
    exact tablePass_data fmt "tan" tanD (by norm_num)

/-- C9.  Every trig value in all three tables is a finite double (magnitude at
most the largest finite binary64 value, hence never an infinity or NaN), and
the full 1134-line table (1128 data lines) is always produced. -/
theorem c9_all_trig_finite (fmt : ℚ → String) : ∀ u : Fin 376,
    |sinD (hwians_to_rads u.val)| ≤ maxFinite
    ∧ |cosD (hwians_to_rads u.val)| ≤ maxFinite
    ∧ |tanD (hwians_to_rads u.val)| ≤ maxFinite
    ∧ (moduleOutput fmt).length = 1134 := by
  intro u
  refine ⟨?_, ?_, ?_, moduleOutput_length fmt⟩
  · unfold sinD
    have h1 : |Real.sin ((hwians_to_rads u.val : ℚ) : ℝ)| ≤ 1 :=
      abs_le.mpr ⟨Real.neg_one_le_sin _, Real.sin_le_one _⟩
    exact abs_fpRoundRQ_le_maxFinite (le_trans h1 (by norm_num))
  · unfold cosD
    have h1 : |Real.cos ((hwians_to_rads u.val : ℚ) : ℝ)| ≤ 1 :=
      abs_le.mpr ⟨Real.neg_one_le_cos _, Real.cos_le_one _⟩
    exact abs_fpRoundRQ_le_maxFinite (le_trans h1 (by norm_num))
  · rcases Nat.lt_or_ge u.val 375 with hu | hu
    · have h0 := (masterTable u).2.2.1
      have hr := ((masterTable u).2.2.2.2 hu).2.2
      unfold tanD
      exact abs_fpRoundRQ_le_maxFinite (abs_tan_small_le h0 hr)
    · have h375 : u.val = 375 := by omega
      rw [h375]
      unfold tanD
      rw [cast_rads375]
      obtain ⟨hlo, hhi⟩ := tan_rads375R_bounds
      have htanpos : (0 : ℝ) < Real.tan rads375R := lt_of_lt_of_le (by norm_num) hlo
      exact abs_fpRoundRQ_le_maxFinite (by rw [abs_of_pos htanpos]; exact hhi)

end AckAck
